import Mathlib

/-!
Shallow embedding of the two instructional scripts of this repository:
`penguins_classifier_(multiclass)_solutions.py` (multiclass classification
workflow on the Palmer penguins data) and
`nlp_text_vectorization_demo_(fall_2024).py` (text vectorization demo on a
four-sentence corpus).  The scripts are linear sequences of calls into
external libraries (pandas, scikit-learn, spacy); the embedding models

* the module-level execution order and name binding of the penguins script
  (needed for the NameError behaviour at the Data Encoding step),
* the syntactic shape of each computational step (library call vs. script
  arithmetic),
* the exact-arithmetic semantics, over `ℚ` and over lists, of the library
  operations the scripts invoke: null-dropping, one-hot encoding,
  standardization, train/test split, count vectorization, TF-IDF feature
  selection with stop words, confusion matrices, and lemmatization.
-/

namespace PredictiveModeling

/-! Section: Module-level execution model of the penguins script

A Python module executes its statements top to bottom.  Each statement may
reference module-level names and may bind names; referencing an unbound name
raises `NameError` and aborts the run.  Built-in names (`print`, `int`, string
literals) are always available and are omitted from the `uses` lists. -/

/-- A module-level statement, abstracted to the names it uses and binds:
an import (binds names), an assignment (uses names on the right-hand side,
binds its targets), a bare expression statement (uses names), or a function
definition (binds the function's name without executing its body). -/
inductive PyStmt where
  | imp (binds : List String)
  | assign (targets : List String) (uses : List String)
  | expr (uses : List String)
  | fundecl (nm : String)
  deriving DecidableEq, Repr

/-- Execute one statement in an environment of bound names: the first unbound
name referenced raises `NameError` carrying that name. -/
def runStmt (env : List String) : PyStmt → Except String (List String)
  | .imp ns => .ok (ns ++ env)
  | .assign ts us =>
    match us.find? (fun u => !env.contains u) with
    | some u => .error u
    | none => .ok (ts ++ env)
  | .expr us =>
    match us.find? (fun u => !env.contains u) with
    | some u => .error u
    | none => .ok env
  | .fundecl n => .ok (n :: env)

/-- Execute a list of statements in order; a `NameError` aborts the run and
no later statement is executed. -/
def runScript (env : List String) : List PyStmt → Except String (List String)
  | [] => .ok env
  | s :: rest =>
    match runStmt env s with
    | .ok e => runScript e rest
    | .error u => .error u

/-- The module-level statements of
`penguins_classifier_(multiclass)_solutions.py`, in source order, each with
the module-level names it uses and binds.  Statement 26 is the call
`one_hot_encode(x, columns=["island", "gender"], dtype=int)` at the Data
Encoding step; the import binding `one_hot_encode` only follows it. -/
def penguinsScript : List PyStmt := [
  .imp ["load_penguins"],
  .assign ["df"] ["load_penguins"],
  .expr ["df"],
  .expr ["df"],
  .expr ["df"],
  .expr ["df"],
  .expr ["df"],
  .expr ["df"],
  .expr ["df"],
  .expr ["df"],
  .expr ["df"],
  .expr ["df"],
  .expr ["df"],
  .expr ["df"],
  .expr ["df"],
  .imp ["px"],
  .expr ["px", "df"],
  .imp ["pairplot"],
  .expr ["pairplot", "df"],
  .fundecl "plot_correlation_matrix",
  .expr ["plot_correlation_matrix", "df"],
  .expr ["df"],
  .assign ["target"] [],
  .assign ["x"] ["df", "target"],
  .assign ["y"] ["df", "target"],
  .expr ["x"],
  .expr ["one_hot_encode", "x"],
  .imp ["one_hot_encode"],
  .assign ["x"] ["one_hot_encode", "x"],
  .expr ["x"],
  .assign ["x_scaled"] ["x"],
  .expr ["x_scaled"],
  .expr ["x_scaled"],
  .expr ["x_scaled"],
  .imp ["train_test_split"],
  .assign ["x_train", "x_test", "y_train", "y_test"] ["train_test_split", "x_scaled", "y"],
  .expr ["x_train", "y_train"],
  .expr ["x_test", "y_test"],
  .imp ["LogisticRegression"],
  .assign ["model"] ["LogisticRegression"],
  .expr ["model", "x_train", "y_train"],
  .expr ["model"],
  .expr ["model"],
  .expr ["model"],
  .expr ["model"],
  .imp ["Series", "DataFrame"],
  .assign ["coef"] ["DataFrame", "model", "x_scaled"],
  .expr ["coef"],
  .expr ["coef"],
  .expr ["coef"],
  .expr ["coef"],
  .imp ["classification_report"],
  .assign ["y_pred"] ["model", "x_test"],
  .expr ["classification_report", "y_test", "y_pred"],
  .imp ["confusion_matrix"],
  .expr ["confusion_matrix", "y_test", "y_pred", "model"],
  .imp ["confusion_matrix"],
  .imp ["px"],
  .fundecl "plot_confusion_matrix",
  .assign ["subtitle"] ["model"],
  .expr ["plot_confusion_matrix", "y_test", "y_pred", "subtitle"],
  .assign ["y_pred_proba"] ["model", "x_test"],
  .expr ["y_pred_proba"],
  .imp ["roc_auc_score"],
  .fundecl "compute_roc_auc_score",
  .expr ["compute_roc_auc_score", "y_test", "y_pred_proba"]]

/-! Section: Syntactic shape of the computational steps -/

/-- A fragment of Python expression syntax: a variable reference, a call of a
library function by name, a method call on a receiver, or a binary operator
applied by the script itself.  Argument lists are kept as source text, since
only the shape of the expression matters here. -/
inductive PyExpr where
  | var (nm : String)
  | call (fn : String) (args : List String)
  | methodCall (recv : PyExpr) (m : String) (args : List String)
  | binop (op : String) (a b : PyExpr)
  deriving DecidableEq, Repr

/-- An expression is a single library call when its outermost node is a call
of a library function or method; an expression whose outermost node is an
operator is arithmetic the script performs itself. -/
def isSingleLibraryCall : PyExpr → Bool
  | .call _ _ => true
  | .methodCall _ _ _ => true
  | _ => false

/-- The right-hand side of `x_scaled = (x - x.mean(axis=0)) / x.std(axis=0)`
(penguins script, Feature Scaling step): script-level division of a
script-level subtraction by a library aggregation call. -/
def xScaledExpr : PyExpr :=
  .binop "/"
    (.binop "-" (.var "x") (.methodCall (.var "x") "mean" ["axis=0"]))
    (.methodCall (.var "x") "std" ["axis=0"])

/-- The computational steps the specification enumerates, each paired with the
expression that performs it in the source. -/
def computationalSteps : List (String × PyExpr) := [
  ("null-dropping", .methodCall (.var "df") "dropna" ["inplace=True"]),
  ("one-hot encoding", .call "one_hot_encode" ["x", "columns=[island, gender]", "dtype=int"]),
  ("standardization", xScaledExpr),
  ("train/test split", .call "train_test_split" ["x_scaled", "y", "test_size=0.2", "random_state=99"]),
  ("logistic regression fitting", .methodCall (.var "model") "fit" ["x_train", "y_train"]),
  ("confusion matrix", .call "confusion_matrix" ["y_test", "y_pred", "labels=model.classes_"]),
  ("roc-auc", .call "roc_auc_score" ["y_true=y_test", "y_score=y_pred_proba", "multi_class=ovr"]),
  ("count vectorization", .methodCall (.var "cv") "fit_transform" ["x"]),
  ("tfidf vectorization", .methodCall (.var "tv") "fit_transform" ["x"]),
  ("lemmatization", .call "nlp" ["text"])]

/-! Section: Feature scaling, in exact rational arithmetic

One column of the dataframe is a list of rationals.  `x.mean(axis=0)` and
`x.std(axis=0)` are the pandas column mean and standard deviation; pandas
`std` uses the sample convention with denominator `n - 1` (ddof = 1).  The
standard deviation itself is a square root and leaves `ℚ`, so it enters as a
parameter `σ` characterised by `0 < σ` and `σ ^ 2 = svar xs`. -/

/-- The column mean `x.mean(axis=0)` of one column, over `ℚ`.
(For the empty column, division by zero yields `0`.) -/
def mean (xs : List ℚ) : ℚ := xs.sum / xs.length

/-- The square of the column standard deviation `x.std(axis=0)`: the sample
variance with denominator `n - 1`, pandas's default ddof = 1. -/
def svar (xs : List ℚ) : ℚ :=
  ((xs.map fun v => (v - mean xs) ^ 2).sum) / ((xs.length - 1 : ℕ) : ℚ)

/-- One column of `x_scaled = (x - x.mean(axis=0)) / x.std(axis=0)` from the
Feature Scaling step, with the column standard deviation passed as `σ`. -/
def standardize (xs : List ℚ) (σ : ℚ) : List ℚ :=
  xs.map fun v => (v - mean xs) / σ

/-! Section: Null dropping

A dataframe row is one optional cell per column; `none` is a missing value
(NaN).  `df.dropna()` keeps exactly the rows with no missing entry. -/

/-- A row with no missing (NaN) cell. -/
def isCompleteRow {α : Type} (r : List (Option α)) : Bool :=
  r.all fun c => c.isSome

/-- Model of `df.dropna()`: retain the rows with no missing entry, in their original
order. -/
def dropna {α : Type} (df : List (List (Option α))) : List (List (Option α)) :=
  df.filter isCompleteRow

/-! Section: One-hot encoding

A dataframe is modelled column-major: a list of named columns, each a list of
cells.  `one_hot_encode` is `pandas.get_dummies` as called at the Data
Encoding step: the listed categorical columns are replaced by one integer
indicator column per distinct value (dtype=int), all other columns are kept
unchanged, in order, ahead of the indicator columns. -/

/-- A dataframe cell: a string (categorical) or an integer value. -/
inductive Cell where
  | str (v : String)
  | int (v : Int)
  deriving DecidableEq, Repr

/-- Text of a cell value, used to name indicator columns. -/
def cellText : Cell → String
  | .str v => v
  | .int v => toString v

/-- The indicator columns `get_dummies` derives from one categorical column:
one column per distinct value `c`, holding `1` where the row's value is `c`
and `0` elsewhere. -/
def indicatorCols (nm : String) (vals : List Cell) : List (String × List Cell) :=
  vals.dedup.map fun c =>
    (nm ++ "_" ++ cellText c, vals.map fun v => Cell.int (if v = c then 1 else 0))

/-- Model of `one_hot_encode(df, columns=cols, dtype=int)` (`pandas.get_dummies`):
keep the columns not listed in `cols`, then append the indicator columns of
each listed column. -/
def one_hot_encode (df : List (String × List Cell)) (cols : List String) :
    List (String × List Cell) :=
  (df.filter fun p => !(cols.contains p.1))
    ++ (cols.flatMap fun nm =>
        match df.find? fun p => p.1 == nm with
        | some p => indicatorCols nm p.2
        | none => [])

/-- The columns encoded at the Data Encoding step:
`columns=["island", "gender"]`. -/
def encodeColumns : List String := ["island", "gender"]

/-! Section: Train/test split

`train_test_split(x_scaled, y, test_size=0.2, random_state=99)` shuffles the
row indices with the seeded random number generator and splits off the first
`ceil(0.2 * n)` shuffled indices as the test set.  The shuffle is modelled by
an arbitrary permutation `perm` of `range n`; `random_state=99` fixes one
such permutation. -/

/-- The number of test rows for `test_size=0.2`: `ceil(n / 5)`. -/
def nTestOf (n : ℕ) : ℕ := (n + 4) / 5

/-- The row indices of the test set: the first `nTestOf n` shuffled indices. -/
def testIndices (perm : List ℕ) (n : ℕ) : List ℕ := perm.take (nTestOf n)

/-- The row indices of the training set: the remaining shuffled indices. -/
def trainIndices (perm : List ℕ) (n : ℕ) : List ℕ := perm.drop (nTestOf n)

/-- Select the rows of `xs` at the given indices, in index-list order. -/
def selectRows {α : Type} (xs : List α) (idx : List ℕ) : List α :=
  idx.filterMap fun i => xs[i]?

/-! Section: Text vectorization

The four-sentence corpus of the text vectorization demo, and the vocabulary
building shared by `CountVectorizer` and `TfidfVectorizer`: tokenize every
document, collect the distinct tokens, drop the configured stop words, and
sort.  On this corpus of lowercase space-separated words the vectorizers'
default token extraction is exactly splitting on spaces. -/

/-- Split a character list into space-separated words (`acc` holds the
current word, reversed). -/
def wordsAux : List Char → List Char → List String
  | [], acc => if acc.isEmpty then [] else [String.mk acc.reverse]
  | c :: cs, acc =>
    if c = ' ' then
      if acc.isEmpty then wordsAux cs []
      else String.mk acc.reverse :: wordsAux cs []
    else wordsAux cs (c :: acc)

/-- Modelled from the spec: the vectorizers' default token extraction, which
on this corpus of lowercase space-separated words splits each sentence on
spaces. -/
def tokenize (s : String) : List String := wordsAux s.data []

/-- Lexicographic comparison of character lists by code point. -/
def charListLe : List Char → List Char → Bool
  | [], _ => true
  | _ :: _, [] => false
  | a :: as, b :: bs =>
    if a.toNat < b.toNat then true
    else if b.toNat < a.toNat then false
    else charListLe as bs

/-- Lexicographic comparison of strings. -/
def strLe (a b : String) : Bool := charListLe a.data b.data

/-- Insert a string into a sorted list of strings. -/
def insertSorted (s : String) : List String → List String
  | [] => [s]
  | t :: ts => if strLe s t then s :: t :: ts else t :: insertSorted s ts

/-- Insertion sort on strings (alphabetical vocabulary order). -/
def sortStrings : List String → List String
  | [] => []
  | s :: ts => insertSorted s (sortStrings ts)

/-- The four-sentence corpus `df["text"]` of the text vectorization demo. -/
def corpusTexts : List String := [
  "the quick brown fox ate",
  "the slow brown dog walked",
  "the quick red dog ran",
  "the lazy yellow fox slept"]

/-- The fitted vocabulary (`get_feature_names_out()`): the distinct tokens of
the corpus, minus the configured stop words, in sorted order.  The default
vectorizer passes `stop = []`. -/
def vocabulary (stop : List String) (corpus : List String) : List String :=
  sortStrings (((corpus.flatMap tokenize).dedup).filter fun w => !(stop.contains w))

/-- The `CountVectorizer` bag-of-words matrix: entry `(i, j)` is the number
of occurrences of vocabulary token `j` in sentence `i`. -/
def bagOfWords (corpus : List String) : List (List ℕ) :=
  corpus.map fun s => (vocabulary [] corpus).map fun w => (tokenize s).count w

/-- Modelled from the spec: scikit-learn's built-in English stop word list
(`stop_words="english"`), given here as the fragment of that list relevant to
this corpus — the only token of the corpus on scikit-learn's list is
`the`. -/
def englishStopWords : List String := [
  "a", "an", "and", "are", "as", "at", "be", "but", "by", "for", "if", "in",
  "into", "is", "it", "no", "not", "of", "on", "or", "such", "that", "the",
  "their", "then", "there", "these", "they", "this", "to", "was", "will",
  "with"]

/-! Section: Confusion matrix display

`plot_confusion_matrix(y_true, y_pred, ...)` first computes
`cm = confusion_matrix(y_true, y_pred)`, then discards it: it rebinds `cm` to
`confusion_matrix(y_test, y_pred, labels=class_names)` with `y_test` and
`class_names` taken from the enclosing scope, and displays that.  A length
mismatch in either call raises before anything is displayed. -/

/-- Sorted distinct labels, as `sorted(y.unique().tolist())`. -/
def uniqueSorted (ys : List String) : List String := sortStrings ys.dedup

/-- One confusion-matrix entry: the number of sample positions whose true
label is `a` and whose predicted label is `b`. -/
def cmEntry (yt yp : List String) (a b : String) : ℕ :=
  (yt.zip yp).countP fun pr => pr.1 == a && pr.2 == b

/-- The confusion matrix over an explicit label order: row label = true
class, column label = predicted class. -/
def confusionMatrixWith (labels : List String) (yt yp : List String) :
    List (List ℕ) :=
  labels.map fun a => labels.map fun b => cmEntry yt yp a b

/-- Model of `confusion_matrix(y_true, y_pred)`: error on inconsistent sample counts,
otherwise the matrix over the sorted distinct labels of both arguments. -/
def confusion_matrix (yt yp : List String) : Except String (List (List ℕ)) :=
  if yt.length = yp.length then
    .ok (confusionMatrixWith (uniqueSorted (yt ++ yp)) yt yp)
  else .error "inconsistent numbers of samples"

/-- Model of `confusion_matrix(y_true, y_pred, labels=labels)`. -/
def confusion_matrix_labels (yt yp : List String) (labels : List String) :
    Except String (List (List ℕ)) :=
  if yt.length = yp.length then .ok (confusionMatrixWith labels yt yp)
  else .error "inconsistent numbers of samples"

/-- The matrix and class labels `plot_confusion_matrix` displays: the matrix
computed from its `y_true` parameter is bound and discarded, and the
displayed matrix is recomputed from the enclosing-scope `y_test`. -/
def plot_confusion_matrix (y_test y_true y_pred : List String) :
    Except String (List (List ℕ) × List String) := do
  let _cm ← confusion_matrix y_true y_pred
  let class_names := uniqueSorted y_test
  let cm ← confusion_matrix_labels y_test y_pred class_names
  pure (cm, class_names)

/-! Section: Lemmatization

The spacy pipeline `nlp` maps a text to tokens carrying a lemma, a stop-word
flag, and a punctuation flag; it is an arbitrary parameter here.  The two
script functions are list comprehensions over its output. -/

/-- One token of the spacy pipeline's output. -/
structure SpacyToken where
  lemma_ : String
  is_stop : Bool
  is_punct : Bool

/-- The function `lemmatizer(text)`: the lemma of every token of `nlp(text)`. -/
def lemmatizer (nlp : String → List SpacyToken) (text : String) : List String :=
  (nlp text).map fun t => t.lemma_

/-- The function `lemmatizer_nostop(text)`: the lemma of every token of `nlp(text)` that
is neither a stop word nor punctuation. -/
def lemmatizer_nostop (nlp : String → List SpacyToken) (text : String) :
    List String :=
  ((nlp text).filter fun t => !t.is_stop && !t.is_punct).map fun t => t.lemma_

/-! Section: Theorems -/

/-- Appending further statements after a failing prefix cannot change the
outcome: the error propagates and nothing after it executes. -/
theorem runScript_append_error (l₁ l₂ : List PyStmt) (env : List String) (e : String)
    (h : runScript env l₁ = .error e) :
    runScript env (l₁ ++ l₂) = .error e := by
  induction l₁ generalizing env with
  | nil => simp [runScript] at h
  | cons s rest ih =>
    simp only [runScript, List.cons_append] at h ⊢
    cases hs : runStmt env s with
    | ok env₂ => rw [hs] at h; exact ih env₂ h
    | error u => rw [hs] at h; exact h

/-- C2: running the penguins script top to bottom, the 26 statements before
the Data Encoding step execute without error, statement 26 is the call to
`one_hot_encode` made before any binding of that name, the whole run raises
`NameError` for `one_hot_encode`, and appending any further statements after
that call leaves the outcome the same error, so no later statement
(feature scaling, model fitting, evaluation) is ever reached. -/
theorem penguins_script_raises_nameerror :
    (runScript [] (penguinsScript.take 26)).isOk = true
    ∧ penguinsScript.get? 26 = some (.expr ["one_hot_encode", "x"])
    ∧ runScript [] penguinsScript = .error "one_hot_encode"
    ∧ ∀ rest : List PyStmt,
        runScript [] (penguinsScript.take 27 ++ rest) = .error "one_hot_encode" := by
  refine ⟨by decide, by decide, rfl, fun rest => ?_⟩
  exact runScript_append_error _ rest [] _ rfl

/-- The claim that every listed computational step is a single external
library call is false: the standardization step
`(x - x.mean(axis=0)) / x.std(axis=0)` has a script-level operator at its
root, so the check fails on the steps list. -/
theorem not_every_step_single_call :
    (computationalSteps.all fun s => isSingleLibraryCall s.2) = false := by
  decide

/-- C1 (amended): every listed computational step other than standardization
is a single external-library call, while the standardization step is not: it
is an elementwise subtract-and-divide expression written by the script
itself, whose operands contain the two library aggregation calls
`x.mean(axis=0)` and `x.std(axis=0)`. -/
theorem steps_single_call_except_standardization :
    ((computationalSteps.filter fun s => s.1 != "standardization").all
        fun s => isSingleLibraryCall s.2) = true
    ∧ isSingleLibraryCall xScaledExpr = false
    ∧ xScaledExpr = .binop "/"
        (.binop "-" (.var "x") (.methodCall (.var "x") "mean" ["axis=0"]))
        (.methodCall (.var "x") "std" ["axis=0"]) := by
  refine ⟨by decide, by decide, rfl⟩

/-- Summing a column after subtracting a constant and dividing by a constant. -/
theorem sum_map_sub_div (xs : List ℚ) (m σ : ℚ) :
    (xs.map fun v => (v - m) / σ).sum = (xs.sum - xs.length * m) / σ := by
  induction xs with
  | nil => simp
  | cons a l ih =>
    simp only [List.map_cons, List.sum_cons, ih, List.length_cons]
    rw [div_add_div_same]
    congr 1
    push_cast
    ring

/-- Summing the squares of a column after subtracting a constant and dividing
by a constant. -/
theorem sum_map_sq_div (xs : List ℚ) (m σ : ℚ) :
    (xs.map fun v => ((v - m) / σ) ^ 2).sum
      = (xs.map fun v => (v - m) ^ 2).sum / σ ^ 2 := by
  induction xs with
  | nil => simp
  | cons a l ih =>
    simp only [List.map_cons, List.sum_cons, ih]
    rw [div_pow, div_add_div_same]

/-- A standardized column has mean exactly `0` (for any scaling divisor). -/
theorem mean_standardize (xs : List ℚ) (σ : ℚ) :
    mean (standardize xs σ) = 0 := by
  rcases eq_or_ne xs [] with h | h
  · subst h; simp [standardize, mean]
  · have hn : (xs.length : ℚ) ≠ 0 :=
      Nat.cast_ne_zero.mpr fun hl => h (List.length_eq_zero.mp hl)
    simp only [mean, standardize, sum_map_sub_div, List.length_map]
    rw [mul_comm, div_mul_cancel₀ _ hn, sub_self, zero_div, zero_div]

/-- A column standardized by its own standard deviation has sample variance
exactly `1`. -/
theorem svar_standardize (xs : List ℚ) (σ : ℚ) (hσ : σ ≠ 0)
    (hvar : σ ^ 2 = svar xs) :
    svar (standardize xs σ) = 1 := by
  have hmean := mean_standardize xs σ
  simp only [svar]
  rw [hmean]
  simp only [sub_zero, standardize, List.length_map, List.map_map, Function.comp_def]
  rw [sum_map_sq_div, div_right_comm]
  have hfold : (xs.map fun v => (v - mean xs) ^ 2).sum / ((xs.length - 1 : ℕ) : ℚ)
      = svar xs := rfl
  rw [hfold, ← hvar, div_self (pow_ne_zero 2 hσ)]

/-- C3: standardizing a column whose standard deviation `σ` is nonzero
(`0 < σ`, `σ ^ 2` equal to the sample variance) yields a column with mean
exactly `0` and sample variance exactly `1`, so its standard deviation — the
unique nonnegative square root of that variance — is exactly `1`; all in
exact rational arithmetic. -/
theorem standardize_mean_zero_std_one (xs : List ℚ) (σ : ℚ)
    (hpos : 0 < σ) (hstd : σ ^ 2 = svar xs) :
    mean (standardize xs σ) = 0
    ∧ svar (standardize xs σ) = 1
    ∧ ∀ τ : ℚ, 0 ≤ τ → τ ^ 2 = svar (standardize xs σ) → τ = 1 := by
  have hσ : σ ≠ 0 := ne_of_gt hpos
  refine ⟨mean_standardize xs σ, svar_standardize xs σ hσ hstd, ?_⟩
  intro τ hτ h1
  rw [svar_standardize xs σ hσ hstd] at h1
  have hfac : (τ - 1) * (τ + 1) = 0 := by
    have hexp : (τ - 1) * (τ + 1) = τ ^ 2 - 1 := by ring
    rw [hexp, h1, sub_self]
  rcases mul_eq_zero.mp hfac with h | h
  · linarith
  · linarith

/-- Witness for C3 at the column `[1, 2, 3]`, whose sample variance is `1`
and standard deviation is `1`. -/
theorem standardize_mean_zero_std_one_witness :
    mean (standardize [1, 2, 3] 1) = 0 ∧ svar (standardize [1, 2, 3] 1) = 1 := by
  have h := standardize_mean_zero_std_one [1, 2, 3] 1 (by norm_num)
    (by norm_num [svar, mean])
  exact ⟨h.1, h.2.1⟩

/-- C4: `df.dropna(inplace=True)` retains exactly the rows without missing
entries: the result is a sublist of the original dataframe (every retained
row is an original row and relative order is kept), every retained row is
complete, and every complete original row is retained. -/
theorem dropna_spec {α : Type} (df : List (List (Option α))) :
    (dropna df).Sublist df
    ∧ (∀ r ∈ dropna df, isCompleteRow r = true)
    ∧ (∀ r ∈ df, isCompleteRow r = true → r ∈ dropna df) := by
  refine ⟨List.filter_sublist df, ?_, ?_⟩
  · intro r hr
    exact (List.mem_filter.mp hr).2
  · intro r hr hc
    exact List.mem_filter.mpr ⟨hr, hc⟩

/-- Witness for C4 on a two-row dataframe with one missing cell. -/
theorem dropna_spec_witness :
    (dropna [[some 1, none], [some 1, some 2]]).Sublist
        [[some 1, none], [some 1, some 2]]
    ∧ [some 1, some 2] ∈ dropna [[some 1, none], [some 1, some 2]] := by
  have h := @dropna_spec ℕ [[some 1, none], [some 1, some 2]]
  exact ⟨h.1, h.2.2 _ (by decide) (by decide)⟩

/-- Filtering by a predicate implied by the search predicate does not change
the result of `find?`. -/
theorem find?_filter_of_imp {α : Type} (l : List α) (p q : α → Bool)
    (h : ∀ a, p a = true → q a = true) :
    (l.filter q).find? p = l.find? p := by
  induction l with
  | nil => rfl
  | cons a t ih =>
    by_cases hp : p a = true
    · simp [List.filter_cons, h a hp, List.find?_cons_of_pos, hp]
    · cases hq : q a
      · simp [List.filter_cons, hq, List.find?_cons_of_neg, hp, ih]
      · simp [List.filter_cons, hq, List.find?_cons_of_neg, hp, ih]

/-- A column of `df` not listed for encoding is looked up unchanged — same
name, same cells, same order — in the one-hot encoded frame. -/
theorem one_hot_keeps_column (df : List (String × List Cell)) (cols : List String)
    (nm : String) (hnm : cols.contains nm = false)
    (hsome : (df.find? fun p => p.1 == nm).isSome = true) :
    (one_hot_encode df cols).find? (fun p => p.1 == nm)
      = df.find? (fun p => p.1 == nm) := by
  unfold one_hot_encode
  rw [List.find?_append, find?_filter_of_imp]
  · cases hfound : df.find? (fun p => p.1 == nm) with
    | none => rw [hfound] at hsome; simp at hsome
    | some pr => simp [Option.or]
  · intro a ha
    have ha' : a.1 = nm := by simpa using ha
    simp only [ha', hnm]
    rfl

/-- Every entry of an indicator column is `0` or `1`. -/
theorem indicator_entries_binary (nm : String) (vals : List Cell)
    (pr : String × List Cell) (hpr : pr ∈ indicatorCols nm vals)
    (v : Cell) (hv : v ∈ pr.2) : v = Cell.int 0 ∨ v = Cell.int 1 := by
  unfold indicatorCols at hpr
  obtain ⟨c, hc, rfl⟩ := List.mem_map.mp hpr
  obtain ⟨w, hw, rfl⟩ := List.mem_map.mp hv
  by_cases h : w = c
  · right; simp [h]
  · left; simp [h]

/-- In every row, exactly one of the indicator columns derived from one
source column holds a `1`. -/
theorem indicator_one_per_row (nm : String) (vals : List Cell) (i : ℕ)
    (h : i < vals.length) :
    ((indicatorCols nm vals).countP fun pr => pr.2[i]? == some (Cell.int 1)) = 1 := by
  unfold indicatorCols
  rw [List.countP_map]
  have hstep : ∀ c ∈ vals.dedup,
      ((fun pr : String × List Cell => pr.2[i]? == some (Cell.int 1)) ∘ fun c =>
          (nm ++ "_" ++ cellText c, vals.map fun v => Cell.int (if v = c then 1 else 0))) c
        ↔ (c == vals[i]) = true := by
    intro c hc
    simp only [Function.comp_def, List.getElem?_map, List.getElem?_eq_getElem h,
      Option.map_some']
    by_cases hwc : vals[i] = c
    · simp [hwc]
    · simp [if_neg hwc, beq_iff_eq]
      exact fun hh => hwc (Eq.symm hh)
  rw [List.countP_congr hstep, ← List.count_eq_countP]
  exact List.count_eq_one_of_mem (List.nodup_dedup vals)
    (List.mem_dedup.mpr (vals.getElem_mem h))

/-- C5: one-hot encoding with `columns=["island", "gender"]` and `dtype=int`
leaves every other column unchanged (same name, same cells, same row order),
while each encoded column is replaced by integer indicator columns whose
entries are only `0` and `1`, with exactly one `1` per row among the
indicators of each source column. -/
theorem one_hot_encode_spec (df : List (String × List Cell)) :
    (∀ nm : String, encodeColumns.contains nm = false →
        (df.find? fun p => p.1 == nm).isSome = true →
        (one_hot_encode df encodeColumns).find? (fun p => p.1 == nm)
          = df.find? (fun p => p.1 == nm))
    ∧ (∀ (nm : String) (vals : List Cell) (pr : String × List Cell),
        pr ∈ indicatorCols nm vals →
        ∀ v ∈ pr.2, v = Cell.int 0 ∨ v = Cell.int 1)
    ∧ (∀ (nm : String) (vals : List Cell) (i : ℕ), i < vals.length →
        ((indicatorCols nm vals).countP fun pr => pr.2[i]? == some (Cell.int 1)) = 1) := by
  refine ⟨fun nm hnm hsome => one_hot_keeps_column df encodeColumns nm hnm hsome,
    fun nm vals pr hpr v hv => indicator_entries_binary nm vals pr hpr v hv,
    fun nm vals i hi => indicator_one_per_row nm vals i hi⟩

/-- Witness for C5 on a three-column frame with a numeric column and the two
categorical columns of the penguins data. -/
theorem one_hot_encode_spec_witness :
    (one_hot_encode
          [("bill", [Cell.int 40, Cell.int 39]),
           ("island", [Cell.str "A", Cell.str "B"]),
           ("gender", [Cell.str "M", Cell.str "F"])] encodeColumns).find?
        (fun p => p.1 == "bill")
      = ([("bill", [Cell.int 40, Cell.int 39]),
          ("island", [Cell.str "A", Cell.str "B"]),
          ("gender", [Cell.str "M", Cell.str "F"])].find? fun p => p.1 == "bill")
    ∧ ((indicatorCols "island" [Cell.str "A", Cell.str "B"]).countP
        fun pr => pr.2[0]? == some (Cell.int 1)) = 1 := by
  have h := one_hot_encode_spec
    [("bill", [Cell.int 40, Cell.int 39]),
     ("island", [Cell.str "A", Cell.str "B"]),
     ("gender", [Cell.str "M", Cell.str "F"])]
  exact ⟨h.1 "bill" (by decide) (by decide),
    h.2.2 "island" [Cell.str "A", Cell.str "B"] 0 (by decide)⟩

/-- The test-set size never exceeds the number of rows. -/
theorem nTestOf_le (n : ℕ) : nTestOf n ≤ n := by
  unfold nTestOf
  omega

/-- Selecting rows at in-range indices yields one row per index. -/
theorem selectRows_length {α : Type} (xs : List α) (idx : List ℕ)
    (h : ∀ i ∈ idx, i < xs.length) :
    (selectRows xs idx).length = idx.length := by
  induction idx with
  | nil => rfl
  | cons i t ih =>
    have hi : i < xs.length := h i (List.mem_cons_self i t)
    simp only [selectRows, List.filterMap_cons, List.getElem?_eq_getElem hi,
      List.length_cons]
    have ht : (selectRows xs t).length = t.length :=
      ih fun j hj => h j (List.mem_cons_of_mem i hj)
    simp only [selectRows] at ht
    rw [ht]

/-- Selecting the same indices from two equal-length lists and zipping the
results equals selecting those indices from the zipped list: the split keeps
`x` rows and `y` rows paired by their original row index. -/
theorem selectRows_zip {α β : Type} (xs : List α) (ys : List β)
    (hlen : xs.length = ys.length) (idx : List ℕ) :
    (selectRows xs idx).zip (selectRows ys idx) = selectRows (xs.zip ys) idx := by
  induction idx with
  | nil => rfl
  | cons i t ih =>
    simp only [selectRows, List.filterMap_cons] at ih ⊢
    by_cases hi : i < xs.length
    · have hi' : i < ys.length := hlen ▸ hi
      have hz : i < (xs.zip ys).length := by
        rw [List.length_zip]
        omega
      rw [List.getElem?_eq_getElem hi, List.getElem?_eq_getElem hi',
        List.getElem?_eq_getElem hz, List.getElem_zip]
      simp only [List.zip_cons_cons, ih]
    · have hi' : ¬ i < ys.length := by omega
      have hz : ¬ i < (xs.zip ys).length := by
        rw [List.length_zip]
        omega
      rw [List.getElem?_eq_none (by omega), List.getElem?_eq_none (by omega),
        List.getElem?_eq_none (by rw [List.length_zip]; omega)]
      exact ih

/-- C6: `train_test_split(x_scaled, y, test_size=0.2, random_state=99)`, for
any shuffle permutation of the `n` row indices: the test set holds
`ceil(0.2 * n)` rows and the training set the rest, the two index sets are
disjoint, the selected row counts sum to `n`, and the `x` and `y` rows stay
paired: zipping the selected `x` rows with the selected `y` rows equals
selecting from the zipped originals, for both the training and the test
part. -/
theorem train_test_split_spec {α β : Type} (n : ℕ) (xs : List α) (ys : List β)
    (perm : List ℕ) (hx : xs.length = n) (hy : ys.length = n)
    (hperm : perm.Perm (List.range n)) :
    (testIndices perm n).length = nTestOf n
    ∧ (trainIndices perm n).length = n - nTestOf n
    ∧ (selectRows xs (testIndices perm n)).length
        + (selectRows xs (trainIndices perm n)).length = n
    ∧ (testIndices perm n).Disjoint (trainIndices perm n)
    ∧ (selectRows xs (testIndices perm n)).zip (selectRows ys (testIndices perm n))
        = selectRows (xs.zip ys) (testIndices perm n)
    ∧ (selectRows xs (trainIndices perm n)).zip (selectRows ys (trainIndices perm n))
        = selectRows (xs.zip ys) (trainIndices perm n) := by
  have hplen : perm.length = n := by simpa using hperm.length_eq
  have hmem : ∀ i ∈ perm, i < n := fun i hi =>
    List.mem_range.mp (hperm.mem_iff.mp hi)
  have hle : nTestOf n ≤ n := nTestOf_le n
  have hxy : xs.length = ys.length := by rw [hx, hy]
  have htestlen : (testIndices perm n).length = nTestOf n := by
    simp [testIndices, List.length_take, hplen, Nat.min_eq_left hle]
  have htrainlen : (trainIndices perm n).length = n - nTestOf n := by
    simp [trainIndices, List.length_drop, hplen]
  have hmemtest : ∀ i ∈ testIndices perm n, i < xs.length := fun i hi =>
    hx ▸ hmem i (List.mem_of_mem_take hi)
  have hmemtrain : ∀ i ∈ trainIndices perm n, i < xs.length := fun i hi =>
    hx ▸ hmem i (List.mem_of_mem_drop hi)
  refine ⟨htestlen, htrainlen, ?_, ?_, selectRows_zip xs ys hxy _,
    selectRows_zip xs ys hxy _⟩
  · rw [selectRows_length xs _ hmemtest, selectRows_length xs _ hmemtrain,
      htestlen, htrainlen]
    omega
  · exact List.disjoint_take_drop (hperm.nodup_iff.mpr (List.nodup_range n))
      (Nat.le_refl (nTestOf n))

/-- Witness for C6: five rows, the shuffle `[4, 0, 2, 1, 3]`, one test row. -/
theorem train_test_split_spec_witness :
    (testIndices [4, 0, 2, 1, 3] 5).length = nTestOf 5
    ∧ (trainIndices [4, 0, 2, 1, 3] 5).length = 5 - nTestOf 5
    ∧ (selectRows [10, 20, 30, 40, 50] (testIndices [4, 0, 2, 1, 3] 5)).length
        + (selectRows [10, 20, 30, 40, 50] (trainIndices [4, 0, 2, 1, 3] 5)).length = 5
    ∧ (testIndices [4, 0, 2, 1, 3] 5).Disjoint (trainIndices [4, 0, 2, 1, 3] 5)
    ∧ (selectRows [10, 20, 30, 40, 50] (testIndices [4, 0, 2, 1, 3] 5)).zip
          (selectRows [5, 6, 7, 8, 9] (testIndices [4, 0, 2, 1, 3] 5))
        = selectRows ([10, 20, 30, 40, 50].zip [5, 6, 7, 8, 9])
            (testIndices [4, 0, 2, 1, 3] 5)
    ∧ (selectRows [10, 20, 30, 40, 50] (trainIndices [4, 0, 2, 1, 3] 5)).zip
          (selectRows [5, 6, 7, 8, 9] (trainIndices [4, 0, 2, 1, 3] 5))
        = selectRows ([10, 20, 30, 40, 50].zip [5, 6, 7, 8, 9])
            (trainIndices [4, 0, 2, 1, 3] 5) :=
  train_test_split_spec 5 [10, 20, 30, 40, 50] [5, 6, 7, 8, 9] [4, 0, 2, 1, 3]
    rfl rfl (by decide)

/-- C7: the corpus has exactly four sentences; fitting `CountVectorizer`
yields a four-row bag-of-words matrix whose entry `(i, j)` counts vocabulary
token `j` in sentence `i` — spelt out here as the explicit matrix over the
sorted vocabulary — and on this corpus every entry is `0` or `1` and every
row sums to `5`. -/
theorem count_vectorizer_matrix :
    corpusTexts.length = 4
    ∧ vocabulary [] corpusTexts =
        ["ate", "brown", "dog", "fox", "lazy", "quick", "ran", "red",
         "slept", "slow", "the", "walked", "yellow"]
    ∧ bagOfWords corpusTexts =
        [[1, 1, 0, 1, 0, 1, 0, 0, 0, 0, 1, 0, 0],
         [0, 1, 1, 0, 0, 0, 0, 0, 0, 1, 1, 1, 0],
         [0, 0, 1, 0, 0, 1, 1, 1, 0, 0, 1, 0, 0],
         [0, 0, 0, 1, 1, 0, 0, 0, 1, 0, 1, 0, 1]]
    ∧ ((bagOfWords corpusTexts).all fun row => row.all fun e => e ≤ 1) = true
    ∧ ((bagOfWords corpusTexts).all fun row => row.sum == 5) = true := by
  exact ⟨rfl, by decide, by decide, by decide, by decide⟩

/-- C8: with `stop_words="english"` the fitted feature names contain no
English stop word; in particular `the` — which is on the stop list and is a
feature of the default vectorizer — is absent from the stopword-removing
vectorizer's feature names. -/
theorem tfidf_stopword_removal :
    ((vocabulary englishStopWords corpusTexts).all
        fun w => !(englishStopWords.contains w)) = true
    ∧ "the" ∈ englishStopWords
    ∧ "the" ∈ vocabulary [] corpusTexts
    ∧ "the" ∉ vocabulary englishStopWords corpusTexts := by
  exact ⟨by decide, by decide, by decide, by decide⟩

/-- C9: the displayed confusion matrix is independent of the `y_true`
parameter: two calls with the same `y_pred` and the same enclosing-scope
`y_test` but different (length-consistent) `y_true` arguments display the
same matrix and the same class labels, because the matrix first computed
from `y_true` is discarded and recomputed from `y_test`. -/
theorem plot_confusion_matrix_ignores_y_true (y_test y_pred yt1 yt2 : List String)
    (h1 : yt1.length = y_pred.length) (h2 : yt2.length = y_pred.length) :
    plot_confusion_matrix y_test yt1 y_pred
      = plot_confusion_matrix y_test yt2 y_pred := by
  simp only [plot_confusion_matrix, confusion_matrix, h1, h2, if_pos]
  rfl

/-- Witness for C9: two opposite ground-truth vectors, identical display. -/
theorem plot_confusion_matrix_ignores_y_true_witness :
    plot_confusion_matrix ["A", "B"] ["A", "A"] ["A", "B"]
      = plot_confusion_matrix ["A", "B"] ["B", "B"] ["A", "B"] :=
  plot_confusion_matrix_ignores_y_true ["A", "B"] ["A", "B"] ["A", "A"] ["B", "B"]
    rfl rfl

/-- C10: for every pipeline output and input text, `lemmatizer_nostop` yields
a sublist of `lemmatizer`'s output — exactly the lemmas of the tokens that
are neither stop words nor punctuation, in the original order. -/
theorem lemmatizer_nostop_sublist (nlp : String → List SpacyToken) (text : String) :
    (lemmatizer_nostop nlp text).Sublist (lemmatizer nlp text)
    ∧ lemmatizer_nostop nlp text
        = ((nlp text).filter fun t => !t.is_stop && !t.is_punct).map
            fun t => t.lemma_ :=
  ⟨List.Sublist.map _ (List.filter_sublist (nlp text)), rfl⟩

/-- Witness for C10 on a two-token pipeline output with one stop word. -/
theorem lemmatizer_nostop_sublist_witness :
    (lemmatizer_nostop (fun _ => [⟨"the", true, false⟩, ⟨"customer", false, false⟩])
        "the customers").Sublist
      (lemmatizer (fun _ => [⟨"the", true, false⟩, ⟨"customer", false, false⟩])
        "the customers") :=
  (lemmatizer_nostop_sublist
    (fun _ => [⟨"the", true, false⟩, ⟨"customer", false, false⟩]) "the customers").1

/-- Witness for C2: the whole run errors, and so does the run of the first 27
statements followed by one more statement standing for the rest of the
script. -/
theorem penguins_script_raises_nameerror_witness :
    runScript [] penguinsScript = .error "one_hot_encode"
    ∧ runScript [] (penguinsScript.take 27 ++ [.expr ["x_scaled"]])
        = .error "one_hot_encode" :=
  ⟨penguins_script_raises_nameerror.2.2.1,
    penguins_script_raises_nameerror.2.2.2 [.expr ["x_scaled"]]⟩

end PredictiveModeling
